import Mathlib

/-!
Verification development for the semantic auto-categorization engine of the
interactive table app (`src/project/routes.py`, `src/project/models.py`).

The engine's data model and operations are embedded shallowly:

* `Category`, `UserCorrection`, `Transaction` mirror the SQLAlchemy models
  (the auto-increment `id` surrogate keys carry no engine logic and are
  omitted; nullable columns become `Option`).
* Numeric similarity scores are represented as `ℚ` (every floating-point
  value is a rational; float arithmetic is idealized as exact).
* The sentence-transformer embedding and `util.cos_sim` are opaque external
  collaborators.  They are passed as a parameter
  `sim : String → Option (String → ℚ)`: `sim desc` is the result of encoding
  one query description (`none` models the encoder raising on that text, as
  in the EmbeddingFailure scenario), and on success the returned function
  gives the cosine score of the query against any label text.
* Fallible code paths (tuple unpacking of a CSV row, `strptime`, the
  `argmax` of an empty score tensor, out-of-range indexing) return `Option`;
  `none` models a raised Python exception.
-/

namespace InteractiveTable

/-- Row of the `Category` table (`models.py`): `key` is the text used for
matching, `category` and `destinationAcc` are the values copied onto a
matched transaction.  All three columns are `nullable=False`. -/
structure Category where
  key : String
  category : String
  destinationAcc : String
  deriving DecidableEq, Repr

/-- Row of the `UserCorrection` table (`models.py`): `desc` is the exact
transaction description the user corrected (text used for matching),
`category` and `destinationAcc` the corrected values.  All three columns are
`nullable=False`. -/
structure UserCorrection where
  desc : String
  category : String
  destinationAcc : String
  deriving DecidableEq, Repr

/-- Row of the `Transaction` table (`models.py`).  `category`, `sourceAcc`,
`destinationAcc` and `score` are nullable columns; `transdate` and `amount`
are kept as the raw strings handed to the ORM, since no engine logic
computes with them. -/
structure Transaction where
  transdate : String
  desc : String
  amount : String
  category : Option String
  sourceAcc : Option String
  destinationAcc : Option String
  score : Option ℚ
  deriving DecidableEq, Repr

/-- The label catalog built at the start of a matching pass
(`routes.py` lines 120-122 and 212-214):
`labels = [c.key for c in categories] + [uc.desc for uc in user_corrections]`. -/
def buildLabels (cats : List Category) (corrs : List UserCorrection) : List String :=
  cats.map (fun c => c.key) ++ corrs.map (fun u => u.desc)

/-- Origin of a winning label: either a `Category` row or a `UserCorrection`
row, carrying the row itself. -/
inductive MatchedLabel where
  | fromCategory : Category → MatchedLabel
  | fromCorrection : UserCorrection → MatchedLabel
  deriving DecidableEq, Repr

/-- The `(category, destinationAcc)` pair a matched label writes onto the
transaction (`routes.py` lines 136-137 and 140-141). -/
def matchedFields : MatchedLabel → String × String
  | MatchedLabel.fromCategory c => (c.category, c.destinationAcc)
  | MatchedLabel.fromCorrection u => (u.category, u.destinationAcc)

/-- Positional origin resolution of a winning index
(`routes.py` lines 134-141 and 245-254):
`if best_match_index < len(categories): categories[best_match_index]
else: user_corrections[best_match_index - len(categories)]`.
`none` models an out-of-range index raising `IndexError`. -/
def resolveIndex (cats : List Category) (corrs : List UserCorrection) (i : Nat) :
    Option MatchedLabel :=
  if i < cats.length then (cats.get? i).map MatchedLabel.fromCategory
  else (corrs.get? (i - cats.length)).map MatchedLabel.fromCorrection

/-- First-occurrence argmax over the list of cosine scores, together with the
winning score (`routes.py` lines 131-132 and 238-239:
`best_match_index = cosine_scores.argmax()`;
`best_match_score = cosine_scores[best_match_index].item()`).
`torch.argmax` returns the index of the first occurrence of the maximal
value; on an empty tensor it raises, modelled by `none`. -/
def bestMatch : List ℚ → Option (Nat × ℚ)
  | [] => none
  | x :: xs =>
    match bestMatch xs with
    | none => some (0, x)
    | some (j, m) => if m ≤ x then some (0, x) else some (j + 1, m)

/-- One iteration of the scoring loop of `_rescore_transactions`
(`routes.py` lines 128-143): encode the description, score it against every
label, take the argmax, resolve the winning index to its origin row and
write `category`, `destinationAcc` and `score` onto the transaction.
`none` models the loop body raising (encoder failure or empty catalog). -/
def rescoreOne (cats : List Category) (corrs : List UserCorrection)
    (sim : String → Option (String → ℚ)) (t : Transaction) : Option Transaction :=
  match sim t.desc with
  | none => none
  | some score =>
    match bestMatch ((buildLabels cats corrs).map score) with
    | none => none
    | some (i, s) =>
      (resolveIndex cats corrs i).map (fun ml =>
        { t with
          category := some (matchedFields ml).1
          destinationAcc := some (matchedFields ml).2
          score := some s })

/-- The whole loop of `_rescore_transactions` (`routes.py` lines 128-143).
The loop has no per-item exception handling: if any iteration raises, the
whole batch raises (`none`) and `db.session.commit()` on line 144 is never
reached. -/
def rescoreBatch (cats : List Category) (corrs : List UserCorrection)
    (sim : String → Option (String → ℚ)) (txs : List Transaction) :
    Option (List Transaction) :=
  txs.mapM (rescoreOne cats corrs sim)

/-- Observable persisted outcome of a `_rescore_transactions` call: on
success the rescored transactions are committed; if the loop raises, the
commit is never reached and the stored transactions keep their prior
values. -/
def refreshScores (cats : List Category) (corrs : List UserCorrection)
    (sim : String → Option (String → ℚ)) (txs : List Transaction) :
    List Transaction :=
  (rescoreBatch cats corrs sim txs).getD txs

/-- Tuple unpacking of one CSV row in `upload_transactions`
(`routes.py` line 231: `transdate, desc, amount = row`).  A row with any
other number of fields raises `ValueError`, modelled by `none`. -/
def parseRow (row : List String) : Option (String × String × String) :=
  match row with
  | [transdate, desc, amount] => some (transdate, desc, amount)
  | _ => none

/-- Body of the import loop of `upload_transactions`
(`routes.py` lines 228-266): unpack the row, parse the date
(`datetime.strptime(transdate, FMT)` is external library code, passed in as
the opaque parameter `parseDate`; `none` models it raising), score the
description against the label catalog, resolve the winning index, and build
the new transaction with the caller-supplied source asset. -/
def processRow (cats : List Category) (corrs : List UserCorrection)
    (sim : String → Option (String → ℚ)) (parseDate : String → Option String)
    (sourceAsset : Option String) (row : List String) : Option Transaction :=
  match parseRow row with
  | none => none
  | some (transdate, desc, amount) =>
    match parseDate transdate with
    | none => none
    | some d =>
      match sim desc with
      | none => none
      | some score =>
        match bestMatch ((buildLabels cats corrs).map score) with
        | none => none
        | some (i, s) =>
          (resolveIndex cats corrs i).map (fun ml =>
            { transdate := d
              desc := desc
              amount := amount
              category := some (matchedFields ml).1
              sourceAcc := sourceAsset
              destinationAcc := some (matchedFields ml).2
              score := some s })

/-- Observable persisted outcome of `upload_transactions`
(`routes.py` lines 222-271): every row is processed and staged with
`db.session.add`; if the whole loop succeeds, `db.session.commit()` persists
the batch after the prior store contents, otherwise the `except` branch
calls `db.session.rollback()` and the store is left exactly as it was. -/
def uploadTransactions (cats : List Category) (corrs : List UserCorrection)
    (sim : String → Option (String → ℚ)) (parseDate : String → Option String)
    (sourceAsset : Option String) (store : List Transaction)
    (rows : List (List String)) : List Transaction :=
  match rows.mapM (processRow cats corrs sim parseDate sourceAsset) with
  | some ts => store ++ ts
  | none => store

/-- In-place update of the first stored correction whose `desc` equals `d`
(`routes.py` lines 329-331: `correction = UserCorrection.query.filter_by(
desc=...).first()` followed by field assignment). -/
def updateFirst : List UserCorrection → String → String → String → List UserCorrection
  | [], _, _, _ => []
  | uc :: rest, d, c, a =>
    if uc.desc = d then { uc with category := c, destinationAcc := a } :: rest
    else uc :: updateFirst rest d c a

/-- The correction-store upsert of `update_transaction`
(`routes.py` lines 327-338): look up an existing correction by exact
description; overwrite its category and destination account if found,
otherwise insert a new correction row. -/
def recordCorrection (store : List UserCorrection) (d c a : String) :
    List UserCorrection :=
  if store.any (fun uc => uc.desc == d) then updateFirst store d c a
  else store ++ [⟨d, c, a⟩]

/-- Model of Python's `data.get(key, default)` on the request JSON
(`routes.py` lines 321-323): the supplied value wins when the key is
present, otherwise the default (the transaction's prior value) is kept. -/
def jsonGet (supplied : Option String) (dflt : Option String) : Option String :=
  match supplied with
  | some v => some v
  | none => dflt

/-- The `update_transaction` endpoint (`routes.py` lines 313-340): apply the
supplied category and destination account (falling back to the prior values)
and, only when the new pair differs from the old one, upsert a
`UserCorrection` keyed by the transaction's description.  The correction
columns are `nullable=False`, so the stored values are the present string
values of the updated fields. -/
def updateTransaction (t : Transaction)
    (dataCategory dataDestinationAcc : Option String)
    (store : List UserCorrection) : Transaction × List UserCorrection :=
  let newCategory := jsonGet dataCategory t.category
  let newDestinationAcc := jsonGet dataDestinationAcc t.destinationAcc
  let t' := { t with category := newCategory, destinationAcc := newDestinationAcc }
  if newCategory ≠ t.category ∨ newDestinationAcc ≠ t.destinationAcc then
    (t', recordCorrection store t.desc (newCategory.getD "") (newDestinationAcc.getD ""))
  else (t', store)

/-- Score serialization of `get_project_transactions`
(`routes.py` line 179): `str(transaction.score) if transaction.score else
None`.  Python truthiness makes both a missing score and a stored score of
exactly `0` serialize as `None`. -/
def serializeScore (score : Option ℚ) : Option String :=
  match score with
  | some v => if v = 0 then none else some (toString v)
  | none => none

/-- Dot product of two embedding vectors, componentwise over the common
length (model of `torch.dot` on equal-length vectors). -/
def dotQ : List ℚ → List ℚ → ℚ
  | x :: xs, y :: ys => x * y + dotQ xs ys
  | _, _ => 0

/-- Cosine similarity as the spec defines it: `c` is the cosine of vectors
`a` and `b` when `c = dot(a,b) / (|a| * |b|)` with `|v| = sqrt (dot v v)`.
Real division by zero is `0` in Lean, matching the eps-clamped value `0`
that `util.cos_sim` produces for a zero vector. -/
def IsCosSim (a b : List ℚ) (c : ℚ) : Prop :=
  (c : ℝ) = (dotQ a b : ℝ) / (Real.sqrt (dotQ a a) * Real.sqrt (dotQ b b))

/-- No two stored corrections share a description. -/
def uniqueDescs (store : List UserCorrection) : Prop :=
  store.Pairwise (fun u v => u.desc ≠ v.desc)

theorem bestMatch_cons_ne_none (x : ℚ) (xs : List ℚ) : bestMatch (x :: xs) ≠ none := by
  rw [bestMatch]
  rcases bestMatch xs with _ | ⟨j, m⟩
  · simp
  · dsimp only
    split <;> simp

/-- Full specification of `bestMatch`: the returned index is in range, the
returned score sits at that index, every score is bounded by the winner, and
every strictly earlier score is strictly below it (first occurrence). -/
theorem bestMatch_spec (xs : List ℚ) :
    ∀ (i : Nat) (s : ℚ), bestMatch xs = some (i, s) →
      i < xs.length ∧ xs.getD i 0 = s ∧
      (∀ j, j < xs.length → xs.getD j 0 ≤ s) ∧
      (∀ j, j < i → xs.getD j 0 < s) := by
  induction xs with
  | nil => intro i s h; exact Option.noConfusion h
  | cons x xs ih =>
    intro i s h
    rw [bestMatch] at h
    cases hb : bestMatch xs with
    | none =>
      rw [hb] at h
      have hxs : xs = [] := by
        cases xs with
        | nil => rfl
        | cons y ys => exact absurd hb (bestMatch_cons_ne_none y ys)
      subst hxs
      simp only [Option.some.injEq, Prod.mk.injEq] at h
      obtain ⟨hi, hs⟩ := h
      subst hi; subst hs
      refine ⟨by simp, by simp, ?_, ?_⟩
      · intro j hj
        have : j = 0 := by simpa using Nat.lt_one_iff.mp (by simpa using hj)
        subst this; simp
      · intro j hj; exact absurd hj (Nat.not_lt_zero j)
    | some p =>
      obtain ⟨j0, m⟩ := p
      rw [hb] at h
      obtain ⟨hjlen, hget, hub, hfirst⟩ := ih j0 m hb
      dsimp only at h
      by_cases hmx : m ≤ x
      · rw [if_pos hmx] at h
        simp only [Option.some.injEq, Prod.mk.injEq] at h
        obtain ⟨hi, hs⟩ := h
        subst hi; subst hs
        refine ⟨by simp, by simp, ?_, ?_⟩
        · intro k hk
          cases k with
          | zero => simp
          | succ k' =>
            have hk' : k' < xs.length := by
              simpa [Nat.succ_lt_succ_iff] using hk
            simpa [List.getD_cons_succ] using le_trans (hub k' hk') hmx
        · intro k hk; exact absurd hk (Nat.not_lt_zero k)
      · rw [if_neg hmx] at h
        push_neg at hmx
        simp only [Option.some.injEq, Prod.mk.injEq] at h
        obtain ⟨hi, hs⟩ := h
        subst hi; subst hs
        refine ⟨by simpa [Nat.succ_lt_succ_iff] using hjlen,
                by simpa [List.getD_cons_succ] using hget, ?_, ?_⟩
        · intro k hk
          cases k with
          | zero => simpa using le_of_lt hmx
          | succ k' =>
            have hk' : k' < xs.length := by
              simpa [Nat.succ_lt_succ_iff] using hk
            simpa [List.getD_cons_succ] using hub k' hk'
        · intro k hk
          cases k with
          | zero => simpa using hmx
          | succ k' =>
            have hk' : k' < j0 := by
              simpa [Nat.succ_lt_succ_iff] using hk
            simpa [List.getD_cons_succ] using hfirst k' hk'

theorem bestMatch_exists (xs : List ℚ) (h : xs ≠ []) :
    ∃ i s, bestMatch xs = some (i, s) := by
  cases xs with
  | nil => exact absurd rfl h
  | cons x xs =>
    cases hb : bestMatch (x :: xs) with
    | none => exact absurd hb (bestMatch_cons_ne_none x xs)
    | some p => exact ⟨p.1, p.2, by simp⟩

theorem buildLabels_length (cats : List Category) (corrs : List UserCorrection) :
    (buildLabels cats corrs).length = cats.length + corrs.length := by
  simp [buildLabels]

theorem resolveIndex_isSome (cats : List Category) (corrs : List UserCorrection)
    (i : Nat) (h : i < cats.length + corrs.length) :
    ∃ ml, resolveIndex cats corrs i = some ml := by
  unfold resolveIndex
  by_cases hc : i < cats.length
  · rw [if_pos hc]
    exact ⟨MatchedLabel.fromCategory (cats.get ⟨i, hc⟩),
      by rw [List.get?_eq_get hc]; rfl⟩
  · rw [if_neg hc]
    have hu : i - cats.length < corrs.length := by omega
    exact ⟨MatchedLabel.fromCorrection (corrs.get ⟨i - cats.length, hu⟩),
      by rw [List.get?_eq_get hu]; rfl⟩

theorem resolveIndex_mem (cats : List Category) (corrs : List UserCorrection)
    (i : Nat) (ml : MatchedLabel) (h : resolveIndex cats corrs i = some ml) :
    ml ∈ cats.map MatchedLabel.fromCategory ++ corrs.map MatchedLabel.fromCorrection := by
  unfold resolveIndex at h
  split at h
  · obtain ⟨c, hc, hml⟩ := Option.map_eq_some'.mp h
    rw [← hml]
    exact List.mem_append_left _ (List.mem_map_of_mem _ (List.get?_mem hc))
  · obtain ⟨u, hu, hml⟩ := Option.map_eq_some'.mp h
    rw [← hml]
    exact List.mem_append_right _ (List.mem_map_of_mem _ (List.get?_mem hu))

/-- C1: for every matching pass, the label catalog is all Category keys in
catalog order followed by all UserCorrection descriptions in catalog order,
and for a catalog built from `c` categories and `u` corrections a winning
index `i` resolves to Category `i` when `i < c`, otherwise to UserCorrection
`i - c`, for all `c` and `u`. -/
theorem labelCatalog_origin_resolution (cats : List Category)
    (corrs : List UserCorrection) (i : Nat) :
    ((buildLabels cats corrs).length = cats.length + corrs.length) ∧
    (i < cats.length →
      ∃ cat, cats.get? i = some cat ∧
        (buildLabels cats corrs).get? i = some cat.key ∧
        resolveIndex cats corrs i = some (MatchedLabel.fromCategory cat)) ∧
    (cats.length ≤ i → i < cats.length + corrs.length →
      ∃ uc, corrs.get? (i - cats.length) = some uc ∧
        (buildLabels cats corrs).get? i = some uc.desc ∧
        resolveIndex cats corrs i = some (MatchedLabel.fromCorrection uc)) := by
  refine ⟨buildLabels_length cats corrs, ?_, ?_⟩
  · intro hc
    refine ⟨cats.get ⟨i, hc⟩, List.get?_eq_get hc, ?_, ?_⟩
    · rw [buildLabels, List.get?_append (by simpa using hc), List.get?_map,
        List.get?_eq_get hc]
      rfl
    · unfold resolveIndex
      rw [if_pos hc, List.get?_eq_get hc]
      rfl
  · intro hc hu
    have hu' : i - cats.length < corrs.length := by omega
    refine ⟨corrs.get ⟨i - cats.length, hu'⟩, List.get?_eq_get hu', ?_, ?_⟩
    · rw [buildLabels, List.get?_append_right (by simpa using hc)]
      simp only [List.length_map]
      rw [List.get?_map, List.get?_eq_get hu']
      rfl
    · unfold resolveIndex
      rw [if_neg (by omega), List.get?_eq_get hu']
      rfl

/-- Witness for C1: with one category and one correction, index 1 resolves
to the correction at position 0 and the catalog lists its description second. -/
theorem labelCatalog_origin_resolution_witness :
    ∃ uc, ([⟨"lunch", "Dining", "X"⟩] : List UserCorrection).get? 0 = some uc ∧
      (buildLabels [⟨"coffee", "Dining", "A"⟩] [⟨"lunch", "Dining", "X"⟩]).get? 1 =
        some uc.desc ∧
      resolveIndex [⟨"coffee", "Dining", "A"⟩] [⟨"lunch", "Dining", "X"⟩] 1 =
        some (MatchedLabel.fromCorrection uc) :=
  (labelCatalog_origin_resolution [⟨"coffee", "Dining", "A"⟩]
    [⟨"lunch", "Dining", "X"⟩] 1).2.2 (by decide) (by decide)

/-- C4: for every non-empty label catalog and every query, the matcher
selects the first-occurrence argmax, so any index attaining the winning
score is at or after the winning index; in particular an equal-scoring
Category label beats every later-indexed UserCorrection label. -/
theorem matcher_first_occurrence_tiebreak (cats : List Category)
    (corrs : List UserCorrection) (sim0 : String → String → ℚ) (query : String)
    (h : buildLabels cats corrs ≠ []) :
    ∃ i s, bestMatch ((buildLabels cats corrs).map (sim0 query)) = some (i, s) ∧
      ∀ j, j < (buildLabels cats corrs).length →
        ((buildLabels cats corrs).map (sim0 query)).getD j 0 = s → i ≤ j := by
  have hne : (buildLabels cats corrs).map (sim0 query) ≠ [] := by
    simpa using h
  obtain ⟨i, s, hb⟩ := bestMatch_exists _ hne
  obtain ⟨hilen, hgeti, hub, hfirst⟩ := bestMatch_spec _ i s hb
  refine ⟨i, s, hb, ?_⟩
  intro j hj hjs
  by_contra hij
  push_neg at hij
  exact absurd hjs (ne_of_lt (hfirst j hij))

/-- Witness for C4: a catalog with one category and one correction carrying
the same matching text, scored by a constant similarity (a perfect tie). -/
theorem matcher_first_occurrence_tiebreak_witness :
    ∃ i s,
      bestMatch ((buildLabels [⟨"acme", "CatA", "X"⟩] [⟨"acme", "CatB", "Y"⟩]).map
        ((fun _ _ => (1 : ℚ)) "query")) = some (i, s) ∧
      ∀ j, j < (buildLabels [⟨"acme", "CatA", "X"⟩] [⟨"acme", "CatB", "Y"⟩]).length →
        ((buildLabels [⟨"acme", "CatA", "X"⟩] [⟨"acme", "CatB", "Y"⟩]).map
          ((fun _ _ => (1 : ℚ)) "query")).getD j 0 = s → i ≤ j :=
  matcher_first_occurrence_tiebreak [⟨"acme", "CatA", "X"⟩] [⟨"acme", "CatB", "Y"⟩]
    (fun _ _ => (1 : ℚ)) "query" (by decide)

theorem dotQ_nil_right (a : List ℚ) : dotQ a [] = 0 := by
  cases a <;> rfl

theorem dotQ_self_nonneg (a : List ℚ) : 0 ≤ dotQ a a := by
  induction a with
  | nil => simp [dotQ]
  | cons x xs ih =>
    rw [dotQ]
    nlinarith [mul_self_nonneg x]

/-- Cauchy-Schwarz for the componentwise dot product, in squared form. -/
theorem dotQ_sq_le (a : List ℚ) : ∀ b : List ℚ, dotQ a b ^ 2 ≤ dotQ a a * dotQ b b := by
  induction a with
  | nil =>
    intro b
    simp [dotQ]
  | cons x xs ih =>
    intro b
    cases b with
    | nil =>
      rw [dotQ_nil_right]
      simp [dotQ]
    | cons y ys =>
      have hD := ih ys
      have hA := dotQ_self_nonneg xs
      have hB := dotQ_self_nonneg ys
      rw [dotQ, dotQ, dotQ]
      rcases eq_or_lt_of_le hB with hB0 | hB0
      · have hDsq : dotQ xs ys ^ 2 ≤ 0 := by nlinarith [hD]
        have hD0 : dotQ xs ys = 0 :=
          sq_eq_zero_iff.mp (le_antisymm hDsq (sq_nonneg (dotQ xs ys)))
        rw [hD0, ← hB0]
        nlinarith [mul_nonneg hA (sq_nonneg y)]
      · nlinarith [sq_nonneg (x * dotQ ys ys - y * dotQ xs ys),
          mul_nonneg (sq_nonneg y) (sub_nonneg.mpr hD),
          mul_nonneg (le_of_lt hB0) (sub_nonneg.mpr hD), hB0]

/-- Any value standing in the cosine-similarity relation lies in `[-1, 1]`. -/
theorem isCosSim_bound (a b : List ℚ) (c : ℚ) (h : IsCosSim a b c) :
    -1 ≤ c ∧ c ≤ 1 := by
  have hA : (0 : ℝ) ≤ (dotQ a a : ℝ) := by exact_mod_cast dotQ_self_nonneg a
  have hB : (0 : ℝ) ≤ (dotQ b b : ℝ) := by exact_mod_cast dotQ_self_nonneg b
  have hD : ((dotQ a b : ℝ)) ^ 2 ≤ (dotQ a a : ℝ) * (dotQ b b : ℝ) := by
    exact_mod_cast dotQ_sq_le a b
  rw [IsCosSim] at h
  have key : |(c : ℝ)| ≤ 1 := by
    rcases eq_or_lt_of_le
        (mul_nonneg (Real.sqrt_nonneg ((dotQ a a : ℚ) : ℝ))
          (Real.sqrt_nonneg ((dotQ b b : ℚ) : ℝ))) with h0 | h0
    · rw [h, ← h0, div_zero]
      simp
    · rw [h, abs_div, abs_of_pos h0, div_le_one h0]
      have habs : |((dotQ a b : ℚ) : ℝ)| = Real.sqrt (((dotQ a b : ℚ) : ℝ) ^ 2) :=
        (Real.sqrt_sq_eq_abs _).symm
      rw [habs]
      calc Real.sqrt (((dotQ a b : ℚ) : ℝ) ^ 2)
          ≤ Real.sqrt (((dotQ a a : ℚ) : ℝ) * ((dotQ b b : ℚ) : ℝ)) :=
            Real.sqrt_le_sqrt hD
        _ = Real.sqrt ((dotQ a a : ℚ) : ℝ) * Real.sqrt ((dotQ b b : ℚ) : ℝ) :=
            Real.sqrt_mul hA _
  have h1 : -1 ≤ (c : ℝ) ∧ (c : ℝ) ≤ 1 := abs_le.mp key
  exact ⟨by exact_mod_cast h1.1, by exact_mod_cast h1.2⟩

/-- C5: for every non-empty label catalog and every query transaction, the
matcher returns exactly one winning label; its index is a valid index into
the catalog and its score, the cosine similarity of the query and label
embeddings, lies in `[-1, 1]`. -/
theorem matcher_single_winner_cosine_range (cats : List Category)
    (corrs : List UserCorrection) (emb : String → List ℚ)
    (sim0 : String → String → ℚ)
    (hsim : ∀ q l, IsCosSim (emb q) (emb l) (sim0 q l))
    (t : Transaction) (h : buildLabels cats corrs ≠ []) :
    ∃ i s t', rescoreOne cats corrs (fun q => some (sim0 q)) t = some t' ∧
      bestMatch ((buildLabels cats corrs).map (sim0 t.desc)) = some (i, s) ∧
      i < (buildLabels cats corrs).length ∧
      t'.score = some s ∧ -1 ≤ s ∧ s ≤ 1 := by
  have hne : (buildLabels cats corrs).map (sim0 t.desc) ≠ [] := by simpa using h
  obtain ⟨i, s, hb⟩ := bestMatch_exists _ hne
  obtain ⟨hilen, hgeti, -, -⟩ := bestMatch_spec _ i s hb
  rw [List.length_map] at hilen
  have hmaplen : i < ((buildLabels cats corrs).map (sim0 t.desc)).length := by
    simpa using hilen
  have hs : sim0 t.desc ((buildLabels cats corrs).get ⟨i, hilen⟩) = s := by
    rw [← hgeti, List.getD_eq_get? , List.get?_eq_get hmaplen]
    simp [List.get_map]
  have hbound := isCosSim_bound (emb t.desc)
    (emb ((buildLabels cats corrs).get ⟨i, hilen⟩)) s
    (hs ▸ hsim t.desc ((buildLabels cats corrs).get ⟨i, hilen⟩))
  obtain ⟨ml, hml⟩ := resolveIndex_isSome cats corrs i
    (by rw [← buildLabels_length]; exact hilen)
  refine ⟨i, s,
    { t with
      category := some (matchedFields ml).1
      destinationAcc := some (matchedFields ml).2
      score := some s }, ?_, hb, hilen, rfl, hbound.1, hbound.2⟩
  unfold rescoreOne
  dsimp only
  rw [hb]
  dsimp only
  rw [hml]
  rfl

/-- Witness for C5: one category "coffee", no corrections, constant unit
embedding, similarity identically 1 (the cosine of two equal unit vectors). -/
theorem matcher_single_winner_cosine_range_witness :
    ∃ i s t', rescoreOne [⟨"coffee", "Dining", "AcctA"⟩] []
        (fun q => some ((fun _ _ => (1 : ℚ)) q))
        ⟨"2024-01-01", "Starbucks purchase", "5", none, none, none, none⟩ = some t' ∧
      bestMatch ((buildLabels [⟨"coffee", "Dining", "AcctA"⟩] []).map
        ((fun _ _ => (1 : ℚ))
          (Transaction.desc ⟨"2024-01-01", "Starbucks purchase", "5",
            none, none, none, none⟩))) = some (i, s) ∧
      i < (buildLabels [⟨"coffee", "Dining", "AcctA"⟩] []).length ∧
      t'.score = some s ∧ -1 ≤ s ∧ s ≤ 1 :=
  matcher_single_winner_cosine_range [⟨"coffee", "Dining", "AcctA"⟩] []
    (fun _ => [(1 : ℚ)]) (fun _ _ => (1 : ℚ))
    (by
      intro q l
      have h1 : dotQ [(1 : ℚ)] [(1 : ℚ)] = 1 := by norm_num [dotQ]
      rw [IsCosSim, h1]
      norm_num [Real.sqrt_one])
    ⟨"2024-01-01", "Starbucks purchase", "5", none, none, none, none⟩
    (by decide)

theorem rescoreOne_empty_catalog (sim : String → Option (String → ℚ))
    (t : Transaction) : rescoreOne [] [] sim t = none := by
  unfold rescoreOne
  cases h : sim t.desc <;> rfl

/-- C2: with both catalogs empty, matching any description fails (the
score loop raises at the argmax over an empty score list, modelled as
`none`, rather than producing a silent zero-confidence match), and the
affected transactions keep their unscored state: the persisted store after
a `_rescore_transactions` call is exactly the prior one. -/
theorem empty_catalog_match_fails_txn_unchanged
    (sim : String → Option (String → ℚ)) (t : Transaction)
    (txs : List Transaction) :
    rescoreOne [] [] sim t = none ∧
    (txs ≠ [] → rescoreBatch [] [] sim txs = none) ∧
    refreshScores [] [] sim txs = txs := by
  have hbatch : ∀ t0 ts, rescoreBatch [] [] sim (t0 :: ts) = none := by
    intro t0 ts
    rw [rescoreBatch, List.mapM_cons]
    simp [rescoreOne_empty_catalog]
  refine ⟨rescoreOne_empty_catalog sim t, ?_, ?_⟩
  · intro hne
    cases txs with
    | nil => exact absurd rfl hne
    | cons t0 ts => exact hbatch t0 ts
  · cases txs with
    | nil => rfl
    | cons t0 ts =>
      rw [refreshScores, hbatch t0 ts]
      rfl

/-- Witness for C2: a single unscored transaction against empty catalogs. -/
theorem empty_catalog_match_fails_txn_unchanged_witness :
    rescoreOne [] [] (fun _ => none)
      ⟨"2024-01-01", "coffee", "5", none, none, none, none⟩ = none ∧
    rescoreBatch [] [] (fun _ => none)
      [⟨"2024-01-01", "coffee", "5", none, none, none, none⟩] = none ∧
    refreshScores [] [] (fun _ => none)
      [⟨"2024-01-01", "coffee", "5", none, none, none, none⟩] =
      [⟨"2024-01-01", "coffee", "5", none, none, none, none⟩] := by
  obtain ⟨h1, h2, h3⟩ := empty_catalog_match_fails_txn_unchanged (fun _ => none)
    ⟨"2024-01-01", "coffee", "5", none, none, none, none⟩
    [⟨"2024-01-01", "coffee", "5", none, none, none, none⟩]
  exact ⟨h1, h2 (by simp), h3⟩

theorem updateFirst_map_desc (d c a : String) : ∀ store : List UserCorrection,
    (updateFirst store d c a).map (fun uc => uc.desc) =
      store.map (fun uc => uc.desc) := by
  intro store
  induction store with
  | nil => rfl
  | cons uc rest ih =>
    rw [updateFirst]
    by_cases h : uc.desc = d
    · rw [if_pos h]; simp [h]
    · rw [if_neg h]; simp [ih]

theorem updateFirst_filter (d c a : String) : ∀ store : List UserCorrection,
    uniqueDescs store → (∃ uc ∈ store, uc.desc = d) →
      (updateFirst store d c a).filter (fun uc => uc.desc == d) = [⟨d, c, a⟩] := by
  intro store
  induction store with
  | nil => intro _ hex; simp at hex
  | cons u rest ih =>
    intro hu hex
    have hu2 : List.Pairwise (fun x y => x.desc ≠ y.desc) (u :: rest) := hu
    obtain ⟨hne, hrest⟩ := List.pairwise_cons.mp hu2
    rw [updateFirst]
    by_cases h : u.desc = d
    · rw [if_pos h]
      rw [List.filter_cons]
      have hhead : (({ u with category := c, destinationAcc := a} :
          UserCorrection).desc == d) = true := by
        simpa using h
      rw [hhead]
      simp only [if_true]
      have htail : rest.filter (fun uc => uc.desc == d) = [] := by
        rw [List.filter_eq_nil]
        intro v hv
        simpa using (h ▸ hne v hv).symm
      rw [htail]
      have : ({ u with category := c, destinationAcc := a} : UserCorrection) =
          ⟨d, c, a⟩ := by
        cases u
        simpa using h
      rw [this]
    · rw [if_neg h]
      rw [List.filter_cons]
      have hhead : ((u.desc == d) = true) = False := by
        simpa using h
      simp only [hhead, if_false]
      apply ih hrest
      rcases hex with ⟨uc, hmem, hde⟩
      rcases List.mem_cons.mp hmem with rfl | hmem2
      · exact absurd hde h
      · exact ⟨uc, hmem2, hde⟩

theorem recordCorrection_filter (store : List UserCorrection) (d c a : String)
    (h : uniqueDescs store) :
    (recordCorrection store d c a).filter (fun uc => uc.desc == d) = [⟨d, c, a⟩] := by
  rw [recordCorrection]
  cases hany : store.any (fun uc => uc.desc == d) with
  | true =>
    rw [if_pos rfl]
    apply updateFirst_filter d c a store h
    obtain ⟨uc, hmem, hbeq⟩ := List.any_eq_true.mp hany
    exact ⟨uc, hmem, by simpa using hbeq⟩
  | false =>
    rw [if_neg Bool.false_ne_true]
    rw [List.filter_append]
    have h1 : store.filter (fun uc => uc.desc == d) = [] := by
      rw [List.filter_eq_nil]
      intro uc hmem hbeq
      have hcontra : store.any (fun uc => uc.desc == d) = true :=
        List.any_eq_true.mpr ⟨uc, hmem, hbeq⟩
      rw [hany] at hcontra
      exact Bool.false_ne_true hcontra
    rw [h1]
    simp

theorem recordCorrection_unique (store : List UserCorrection) (d c a : String)
    (h : uniqueDescs store) : uniqueDescs (recordCorrection store d c a) := by
  rw [recordCorrection]
  cases hany : store.any (fun uc => uc.desc == d) with
  | true =>
    rw [if_pos rfl]
    have hmap : ((updateFirst store d c a).map (fun uc => uc.desc)).Pairwise Ne := by
      rw [updateFirst_map_desc, List.pairwise_map]
      exact h
    have := List.pairwise_map.mp hmap
    exact this
  | false =>
    rw [if_neg Bool.false_ne_true]
    show List.Pairwise _ _
    rw [List.pairwise_append]
    refine ⟨h, by simp, ?_⟩
    intro u hu v hv
    have hvd : v = ⟨d, c, a⟩ := by simpa using hv
    subst hvd
    show u.desc ≠ d
    intro hud
    have hcontra : store.any (fun uc => uc.desc == d) = true :=
      List.any_eq_true.mpr ⟨u, hu, by simpa using hud⟩
    rw [hany] at hcontra
    exact Bool.false_ne_true hcontra

/-- C3: starting from any correction store with pairwise-distinct
descriptions, `record_correction(d, c, a)` leaves exactly one correction
with description `d`, and it holds the most recently recorded category and
destination account; uniqueness of descriptions is preserved, and a second
recording for the same description (overwrite or exact repeat) still leaves
exactly one correction holding the latest values. -/
theorem correction_upsert_unique (store : List UserCorrection)
    (d c a cPrev aPrev : String) (h : uniqueDescs store) :
    (recordCorrection store d c a).filter (fun uc => uc.desc == d) = [⟨d, c, a⟩] ∧
    uniqueDescs (recordCorrection store d c a) ∧
    (recordCorrection (recordCorrection store d cPrev aPrev) d c a).filter
      (fun uc => uc.desc == d) = [⟨d, c, a⟩] :=
  ⟨recordCorrection_filter store d c a h,
   recordCorrection_unique store d c a h,
   recordCorrection_filter _ d c a (recordCorrection_unique store d cPrev aPrev h)⟩

/-- Witness for C3: overwriting a correction for "Trader Joes" recorded over
a one-entry store. -/
theorem correction_upsert_unique_witness :
    (recordCorrection [⟨"x", "C0", "A0"⟩] "Trader Joes" "Groceries" "Chequing").filter
      (fun uc => uc.desc == "Trader Joes") = [⟨"Trader Joes", "Groceries", "Chequing"⟩] ∧
    uniqueDescs (recordCorrection [⟨"x", "C0", "A0"⟩] "Trader Joes" "Groceries" "Chequing") ∧
    (recordCorrection (recordCorrection [⟨"x", "C0", "A0"⟩] "Trader Joes" "Dining" "Card")
      "Trader Joes" "Groceries" "Chequing").filter (fun uc => uc.desc == "Trader Joes") =
      [⟨"Trader Joes", "Groceries", "Chequing"⟩] :=
  correction_upsert_unique [⟨"x", "C0", "A0"⟩] "Trader Joes" "Groceries" "Chequing"
    "Dining" "Card" (by simp [uniqueDescs])

/-- C8: an edit whose supplied category and destination account reproduce
the transaction's prior values takes the no-change branch of
`update_transaction`: no correction is created or updated and the
correction store is identical before and after; the transaction itself is
also unchanged. -/
theorem noop_edit_writes_no_correction (t : Transaction)
    (dataCategory dataDestinationAcc : Option String) (store : List UserCorrection)
    (hc : jsonGet dataCategory t.category = t.category)
    (hd : jsonGet dataDestinationAcc t.destinationAcc = t.destinationAcc) :
    (updateTransaction t dataCategory dataDestinationAcc store).2 = store ∧
    (updateTransaction t dataCategory dataDestinationAcc store).1 = t := by
  rw [updateTransaction]
  simp only [hc, hd]
  simp

/-- Witness for C8: supplying the very category and destination account the
transaction already carries. -/
theorem noop_edit_writes_no_correction_witness :
    (updateTransaction
      ⟨"2024-01-01", "Starbucks", "5", some "Dining", none, some "AcctA", some 1⟩
      (some "Dining") (some "AcctA") [⟨"x", "C0", "A0"⟩]).2 = [⟨"x", "C0", "A0"⟩] ∧
    (updateTransaction
      ⟨"2024-01-01", "Starbucks", "5", some "Dining", none, some "AcctA", some 1⟩
      (some "Dining") (some "AcctA") [⟨"x", "C0", "A0"⟩]).1 =
      ⟨"2024-01-01", "Starbucks", "5", some "Dining", none, some "AcctA", some 1⟩ :=
  noop_edit_writes_no_correction
    ⟨"2024-01-01", "Starbucks", "5", some "Dining", none, some "AcctA", some 1⟩
    (some "Dining") (some "AcctA") [⟨"x", "C0", "A0"⟩] rfl rfl

/-- Counterexample to C9 as stated: a transaction persisted with score
exactly `0` is serialized by `get_project_transactions` as `None`
(unscored), although its persisted score is not absent. -/
theorem zero_score_reported_unscored :
    serializeScore (some 0) = none ∧ (some (0 : ℚ) : Option ℚ) ≠ none := by
  exact ⟨rfl, by simp⟩

/-- C9 as amended: the read interface reports a transaction as unscored
exactly when its persisted score is absent or equal to zero; a nonzero
persisted score is reported as that score's decimal rendering.  (The
persisted representation itself does keep absence distinct from zero.) -/
theorem serializeScore_amended (s : Option ℚ) (v : ℚ) :
    (serializeScore s = none ↔ s = none ∨ s = some 0) ∧
    (v ≠ 0 → serializeScore (some v) = some (toString v)) := by
  constructor
  · cases s with
    | none => simp [serializeScore]
    | some w =>
      by_cases hw : w = 0
      · subst hw; simp [serializeScore]
      · simp [serializeScore, hw]
  · intro hv
    simp [serializeScore, hv]

/-- Witness for C9 (amended): a persisted score of 37 is reported as its
rendering, not as unscored. -/
theorem serializeScore_amended_witness :
    serializeScore (some 37) = some (toString (37 : ℚ)) :=
  (serializeScore_amended (some 37) 37).2 (by norm_num)

/-- C7 evidence: with one perfectly scorable transaction and one
transaction whose description the embedding provider rejects, the whole
`_rescore_transactions` batch aborts: nothing is committed, even though the
healthy transaction on its own would rescore successfully. -/
theorem embedding_failure_aborts_whole_batch :
    rescoreBatch [⟨"coffee", "Dining", "AcctA"⟩] []
      (fun d => if d = "bad" then none else some (fun _ => (1 : ℚ)))
      [⟨"2024-01-01", "bad", "5", none, none, none, none⟩,
       ⟨"2024-01-02", "grocery run", "7", none, none, none, none⟩] = none ∧
    refreshScores [⟨"coffee", "Dining", "AcctA"⟩] []
      (fun d => if d = "bad" then none else some (fun _ => (1 : ℚ)))
      [⟨"2024-01-01", "bad", "5", none, none, none, none⟩,
       ⟨"2024-01-02", "grocery run", "7", none, none, none, none⟩] =
      [⟨"2024-01-01", "bad", "5", none, none, none, none⟩,
       ⟨"2024-01-02", "grocery run", "7", none, none, none, none⟩] ∧
    rescoreOne [⟨"coffee", "Dining", "AcctA"⟩] []
      (fun d => if d = "bad" then none else some (fun _ => (1 : ℚ)))
      ⟨"2024-01-02", "grocery run", "7", none, none, none, none⟩ =
      some ⟨"2024-01-02", "grocery run", "7", some "Dining", none, some "AcctA", some 1⟩ := by
  exact ⟨rfl, rfl, rfl⟩

theorem mapM_option_none {α β : Type} (f : α → Option β) :
    ∀ (l : List α) (x : α), x ∈ l → f x = none → l.mapM f = none := by
  intro l
  induction l with
  | nil => intro x hx; simp at hx
  | cons a as ih =>
    intro x hx hfx
    rw [List.mapM_cons]
    rcases List.mem_cons.mp hx with rfl | hx2
    · rw [hfx]; rfl
    · cases hfa : f a with
      | none => rfl
      | some y =>
        show (as.mapM f >>= fun ys => pure (y :: ys) : Option (List β)) = none
        rw [ih x hx2 hfx]
        rfl

theorem mapM_option_all_some {α β : Type} (f : α → Option β) :
    ∀ l : List α, (∀ x ∈ l, (f x).isSome) →
      ∃ ts, l.mapM f = some ts ∧ ts.length = l.length := by
  intro l
  induction l with
  | nil => intro h; exact ⟨[], rfl, rfl⟩
  | cons a as ih =>
    intro hall
    obtain ⟨y, hy⟩ := Option.isSome_iff_exists.mp (hall a (List.mem_cons_self a as))
    obtain ⟨ts, hts, hlen⟩ := ih (fun x hx => hall x (List.mem_cons_of_mem a hx))
    refine ⟨y :: ts, ?_, by simp [hlen]⟩
    rw [List.mapM_cons, hy, hts]
    rfl

/-- C6 as amended: if any uploaded row fails to parse, the import persists
nothing; if every row is fully processable (parses and is scorable, which
requires a non-empty label catalog), every row's transaction is persisted
after the prior store contents; and any failed import leaves the store
exactly as it was. -/
theorem upload_all_or_nothing_amended (cats : List Category)
    (corrs : List UserCorrection) (sim : String → Option (String → ℚ))
    (parseDate : String → Option String) (sourceAsset : Option String)
    (store : List Transaction) (rows : List (List String)) :
    ((∃ r ∈ rows, parseRow r = none) →
      uploadTransactions cats corrs sim parseDate sourceAsset store rows = store) ∧
    ((∀ r ∈ rows, (processRow cats corrs sim parseDate sourceAsset r).isSome) →
      ∃ ts, rows.mapM (processRow cats corrs sim parseDate sourceAsset) = some ts ∧
        ts.length = rows.length ∧
        uploadTransactions cats corrs sim parseDate sourceAsset store rows = store ++ ts) ∧
    (rows.mapM (processRow cats corrs sim parseDate sourceAsset) = none →
      uploadTransactions cats corrs sim parseDate sourceAsset store rows = store) := by
  refine ⟨?_, ?_, ?_⟩
  · intro h
    obtain ⟨r, hmem, hr⟩ := h
    have hproc : processRow cats corrs sim parseDate sourceAsset r = none := by
      unfold processRow
      rw [hr]
    have hm := mapM_option_none _ rows r hmem hproc
    unfold uploadTransactions
    rw [hm]
  · intro hall
    obtain ⟨ts, hts, hlen⟩ := mapM_option_all_some _ rows hall
    refine ⟨ts, hts, hlen, ?_⟩
    unfold uploadTransactions
    rw [hts]
  · intro hm
    unfold uploadTransactions
    rw [hm]

/-- Witness for C6 (amended): a one-row import against a one-category
catalog persists exactly that row's transaction. -/
theorem upload_all_or_nothing_amended_witness :
    ∃ ts, [["2024-01-01", "Starbucks", "5"]].mapM
        (processRow [⟨"coffee", "Dining", "AcctA"⟩] []
          (fun _ => some (fun _ => (1 : ℚ))) (fun s => some s) (some "Chequing")) =
        some ts ∧
      ts.length = [["2024-01-01", "Starbucks", "5"]].length ∧
      uploadTransactions [⟨"coffee", "Dining", "AcctA"⟩] []
        (fun _ => some (fun _ => (1 : ℚ))) (fun s => some s) (some "Chequing") []
        [["2024-01-01", "Starbucks", "5"]] = [] ++ ts :=
  (upload_all_or_nothing_amended [⟨"coffee", "Dining", "AcctA"⟩] []
    (fun _ => some (fun _ => (1 : ℚ))) (fun s => some s) (some "Chequing") []
    [["2024-01-01", "Starbucks", "5"]]).2.1 (by decide)

/-- Counterexample to C6 as stated: with empty catalogs, a well-formed
one-row upload parses completely and yet persists nothing (the scoring step
fails inside the guarded loop and the whole batch is rolled back), so
"otherwise every row's transaction is persisted" fails. -/
theorem upload_rows_parse_but_nothing_persisted :
    parseRow ["2024-01-01", "coffee", "5"] = some ("2024-01-01", "coffee", "5") ∧
    [["2024-01-01", "coffee", "5"]].length = 1 ∧
    uploadTransactions [] [] (fun _ => some (fun _ => (1 : ℚ))) (fun s => some s)
      none [] [["2024-01-01", "coffee", "5"]] = [] := by
  exact ⟨rfl, rfl, rfl⟩

/-- C10: whenever the label catalog is non-empty, the category and
destination account persisted for an imported row are copied from some
Category or UserCorrection entry of the catalog — the initial fallback
values ("Uncategorized", "") are always overwritten before the transaction
is built. -/
theorem import_fields_from_catalog (cats : List Category)
    (corrs : List UserCorrection) (sim : String → Option (String → ℚ))
    (parseDate : String → Option String) (sourceAsset : Option String)
    (row : List String) (transdate desc amount d : String) (score : String → ℚ)
    (h : buildLabels cats corrs ≠ [])
    (hrow : parseRow row = some (transdate, desc, amount))
    (hpd : parseDate transdate = some d)
    (hsim : sim desc = some score) :
    ∃ t ml, processRow cats corrs sim parseDate sourceAsset row = some t ∧
      ml ∈ cats.map MatchedLabel.fromCategory ++ corrs.map MatchedLabel.fromCorrection ∧
      t.category = some (matchedFields ml).1 ∧
      t.destinationAcc = some (matchedFields ml).2 := by
  have hne : (buildLabels cats corrs).map score ≠ [] := by simpa using h
  obtain ⟨i, s, hb⟩ := bestMatch_exists _ hne
  obtain ⟨hilen, -, -, -⟩ := bestMatch_spec _ i s hb
  rw [List.length_map] at hilen
  obtain ⟨ml, hml⟩ := resolveIndex_isSome cats corrs i
    (by rw [← buildLabels_length]; exact hilen)
  refine ⟨{ transdate := d, desc := desc, amount := amount,
            category := some (matchedFields ml).1, sourceAcc := sourceAsset,
            destinationAcc := some (matchedFields ml).2, score := some s }, ml, ?_,
          resolveIndex_mem cats corrs i ml hml, rfl, rfl⟩
  unfold processRow
  rw [hrow]
  dsimp only
  rw [hpd]
  dsimp only
  rw [hsim]
  dsimp only
  rw [hb]
  dsimp only
  rw [hml]
  rfl

/-- Witness for C10: a one-row import over a one-category catalog. -/
theorem import_fields_from_catalog_witness :
    ∃ t ml, processRow [⟨"coffee", "Dining", "AcctA"⟩] []
        (fun _ => some (fun _ => (1 : ℚ))) (fun s => some s) (some "Chequing")
        ["2024-01-01", "Starbucks", "5"] = some t ∧
      ml ∈ ([⟨"coffee", "Dining", "AcctA"⟩] : List Category).map
          MatchedLabel.fromCategory ++
        ([] : List UserCorrection).map MatchedLabel.fromCorrection ∧
      t.category = some (matchedFields ml).1 ∧
      t.destinationAcc = some (matchedFields ml).2 :=
  import_fields_from_catalog [⟨"coffee", "Dining", "AcctA"⟩] []
    (fun _ => some (fun _ => (1 : ℚ))) (fun s => some s) (some "Chequing")
    ["2024-01-01", "Starbucks", "5"] "2024-01-01" "Starbucks" "5" "2024-01-01"
    (fun _ => (1 : ℚ)) (by decide) rfl rfl rfl

end InteractiveTable
